import Mathlib

/-!
# Verification of the CVdOST agentic-AI resume-analysis core

Shallow embedding of the scoring pipeline of the repository
(`backend/tools/ats_scorer.py`, `backend/tools/skill_comparator.py`,
`backend/tools/semantic_matcher.py`, `backend/utils/embeddings.py`,
`backend/models/analytics_engine.py`, `backend/orchestration.py`).

Python floats are modelled as exact rationals (`ℚ`); real-valued
transcendental expressions (square roots inside cosine similarity, the
logistic display transform) live in `ℝ`.  `round(x, n)` is modelled as
round-half-to-even on the exact rational value; every rounded value used
in a theorem below is exact (never a tie), so the binary-float tie
behaviour of CPython is irrelevant to the statements proved here.
-/

namespace CVdOST

/-- Round-half-to-even on rationals, the tie-breaking rule of Python's
`round`.  (`⌊x⌋` when the fractional part is below `1/2`, `⌊x⌋ + 1` when it
is above, the even neighbour on an exact tie.) -/
def rhe (x : ℚ) : ℤ :=
  let f : ℤ := ⌊x⌋
  if x - f < 1/2 then f
  else if 1/2 < x - f then f + 1
  else if Even f then f else f + 1

/-- Python `round(x, n)` on an exact rational value. -/
def pyRound (x : ℚ) (n : ℕ) : ℚ :=
  (rhe (x * (10 : ℚ) ^ n) : ℚ) / (10 : ℚ) ^ n

theorem rhe_intCast (z : ℤ) : rhe (z : ℚ) = z := by
  simp [rhe]

theorem rhe_nonneg {x : ℚ} (hx : 0 ≤ x) : 0 ≤ rhe x := by
  have hf : (0 : ℤ) ≤ ⌊x⌋ := Int.floor_nonneg.mpr hx
  simp only [rhe]
  split <;> [exact hf; skip]
  split <;> [omega; skip]
  split <;> omega

theorem rhe_le_of_le {x : ℚ} {n : ℤ} (hx : x ≤ n) : rhe x ≤ n := by
  have hf : ⌊x⌋ ≤ n := Int.floor_le_floor (by exact_mod_cast hx) |>.trans_eq (Int.floor_intCast n)
  simp only [rhe]
  split
  · exact hf
  · rename_i h1
    push_neg at h1
    have hfrac : (1:ℚ)/2 ≤ x - ⌊x⌋ := h1
    have hlt : (⌊x⌋ : ℚ) < x := by
      have : (0:ℚ) < 1/2 := by norm_num
      linarith
    have hceil : ⌊x⌋ + 1 ≤ n := by
      by_contra hcon
      push_neg at hcon
      have : n ≤ ⌊x⌋ := by omega
      have : (x : ℚ) ≤ ⌊x⌋ := le_trans hx (by exact_mod_cast this)
      linarith
    split <;> [exact hceil; skip]
    split <;> omega

theorem pyRound_nonneg {x : ℚ} (hx : 0 ≤ x) (n : ℕ) : 0 ≤ pyRound x n := by
  unfold pyRound
  have h1 : (0:ℚ) ≤ (rhe (x * (10:ℚ)^n) : ℚ) := by
    exact_mod_cast rhe_nonneg (by positivity)
  positivity

theorem pyRound_le {x : ℚ} {m : ℤ} (hx : x ≤ m) (n : ℕ) :
    pyRound x n ≤ m := by
  unfold pyRound
  have hpow : (0:ℚ) < (10:ℚ)^n := by positivity
  have h1 : x * (10:ℚ)^n ≤ (m * 10^n : ℤ) := by
    push_cast
    exact mul_le_mul_of_nonneg_right hx (le_of_lt hpow)
  have h2 : rhe (x * (10:ℚ)^n) ≤ m * 10^n := rhe_le_of_le h1
  rw [div_le_iff₀ hpow]
  calc ((rhe (x * (10:ℚ)^n)) : ℚ) ≤ ((m * 10^n : ℤ) : ℚ) := by exact_mod_cast h2
    _ = m * 10^n := by push_cast; ring

/-- `_clamp01` from `tools/ats_scorer.py`: `max(0.0, min(1.0, float(x)))`. -/
def clamp01 (x : ℚ) : ℚ := max 0 (min 1 x)

theorem clamp01_nonneg (x : ℚ) : 0 ≤ clamp01 x := le_max_left 0 _

theorem clamp01_le_one (x : ℚ) : clamp01 x ≤ 1 := by
  unfold clamp01
  rcases le_total (min 1 x) 0 with h | h
  · rw [max_eq_left h]; exact zero_le_one
  · rw [max_eq_right h]; exact min_le_left 1 x

theorem clamp01_eq_self {x : ℚ} (h0 : 0 ≤ x) (h1 : x ≤ 1) : clamp01 x = x := by
  unfold clamp01
  rw [min_eq_right h1, max_eq_right h0]

theorem pyRound_intCast (z : ℤ) (n : ℕ) : pyRound (z : ℚ) n = z := by
  unfold pyRound
  have h : ((z : ℚ) * (10 : ℚ) ^ n) = (((z * 10 ^ n : ℤ) : ℚ)) := by push_cast; ring
  rw [h, rhe_intCast]
  have hpow : ((10 : ℚ) ^ n) ≠ 0 := by positivity
  push_cast
  field_simp

/-! ## `fuse_components` (`tools/ats_scorer.py`, lines 167-256)

The explanation/suggestion strings of the source are presentational and
not referenced by any claim; the model keeps every numeric output. -/

/-- The weight dictionary of `fuse_components`. -/
structure Weights where
  semantic : ℚ
  skills : ℚ
  keywords : ℚ
  action_verbs : ℚ
  experience : ℚ
  formatting : ℚ

/-- The default weight dictionary of `fuse_components`
(`semantic .30, skills .30, keywords .15, action_verbs .08,
experience .12, formatting -.05`). -/
def defaultWeights : Weights :=
  { semantic := 30/100, skills := 30/100, keywords := 15/100
    action_verbs := 8/100, experience := 12/100, formatting := -(5/100) }

/-- Numeric outputs of `fuse_components`. -/
structure FuseResult where
  c_sem : ℚ
  c_ski : ℚ
  c_key : ℚ
  c_act : ℚ
  c_exp : ℚ
  c_fmt : ℚ
  final_score : ℚ
  final_score_norm : ℚ

/-- `fuse_components` of `tools/ats_scorer.py`: clamp each signal to
`[0,1]`, expose each as a `0..100` component, form the weighted positive
sum, then `penalty = max(0.0, weights["formatting"] * s_fmt_pen)`,
`raw_score = positive_sum + penalty`, and normalise by the sum of the
absolute values of the non-formatting weights (with the Python `or 1`
guard replacing a zero denominator by 1). -/
def fuseComponents (w : Weights) (semantic_score skill_fit_index keyword_density
    action_verb_ratio experience_relevance formatting_penalty : ℚ) : FuseResult :=
  let s_sem := clamp01 semantic_score
  let s_ski := clamp01 skill_fit_index
  let s_key := clamp01 keyword_density
  let s_act := clamp01 action_verb_ratio
  let s_exp := clamp01 experience_relevance
  let s_fmt_pen := clamp01 formatting_penalty
  let positive_sum := w.semantic * s_sem + w.skills * s_ski + w.keywords * s_key
    + w.action_verbs * s_act + w.experience * s_exp
  let penalty := max 0 (w.formatting * s_fmt_pen)
  let raw_score := positive_sum + penalty
  let absSum := |w.semantic| + |w.skills| + |w.keywords| + |w.action_verbs| + |w.experience|
  let denom := if absSum = 0 then 1 else absSum
  let final_norm := clamp01 (raw_score / denom)
  { c_sem := pyRound (s_sem * 100) 2
    c_ski := pyRound (s_ski * 100) 2
    c_key := pyRound (s_key * 100) 2
    c_act := pyRound (s_act * 100) 2
    c_exp := pyRound (s_exp * 100) 2
    c_fmt := pyRound (s_fmt_pen * 100) 2
    final_score := pyRound (final_norm * 100) 2
    final_score_norm := final_norm }

theorem default_absSum :
    |(30:ℚ)/100| + |(30:ℚ)/100| + |(15:ℚ)/100| + |(8:ℚ)/100| + |(12:ℚ)/100| = 95/100 := by
  have h30 : |(30:ℚ)/100| = 30/100 := abs_of_nonneg (by norm_num)
  have h15 : |(15:ℚ)/100| = 15/100 := abs_of_nonneg (by norm_num)
  have h8 : |(8:ℚ)/100| = 8/100 := abs_of_nonneg (by norm_num)
  have h12 : |(12:ℚ)/100| = 12/100 := abs_of_nonneg (by norm_num)
  rw [h30, h15, h8, h12]
  norm_num

theorem default_penalty_zero (f : ℚ) : max (0:ℚ) (-(5/100) * clamp01 f) = 0 :=
  max_eq_left (mul_nonpos_of_nonpos_of_nonneg (by norm_num) (clamp01_nonneg f))

/-- Under the default weights the `max(0.0, -0.05 * s_fmt_pen)` penalty term
is identically zero, so the final score is the clamped rescale of the
positive weighted sum alone, independent of `formatting_penalty`. -/
theorem fuse_default_final (a b c d e f : ℚ) :
    (fuseComponents defaultWeights a b c d e f).final_score
      = pyRound (clamp01 ((30/100 * clamp01 a + 30/100 * clamp01 b + 15/100 * clamp01 c
          + 8/100 * clamp01 d + 12/100 * clamp01 e) / (95/100)) * 100) 2 := by
  unfold fuseComponents defaultWeights
  simp only [default_absSum, default_penalty_zero]
  norm_num

theorem fuse_default_norm (a b c d e f : ℚ) :
    (fuseComponents defaultWeights a b c d e f).final_score_norm
      = clamp01 ((30/100 * clamp01 a + 30/100 * clamp01 b + 15/100 * clamp01 c
          + 8/100 * clamp01 d + 12/100 * clamp01 e) / (95/100)) := by
  unfold fuseComponents defaultWeights
  simp only [default_absSum, default_penalty_zero]
  norm_num

theorem fuse_final_nonneg (w : Weights) (a b c d e f : ℚ) :
    0 ≤ (fuseComponents w a b c d e f).final_score := by
  unfold fuseComponents
  exact pyRound_nonneg (mul_nonneg (clamp01_nonneg _) (by norm_num)) 2

theorem fuse_final_le_100 (w : Weights) (a b c d e f : ℚ) :
    (fuseComponents w a b c d e f).final_score ≤ 100 := by
  unfold fuseComponents
  refine le_trans (pyRound_le (m := 100) ?_ 2) (by norm_num)
  calc clamp01 _ * 100 ≤ 1 * 100 :=
        mul_le_mul_of_nonneg_right (clamp01_le_one _) (by norm_num)
    _ = ((100 : ℤ) : ℚ) := by norm_num

theorem clamp01_zero : clamp01 (0:ℚ) = 0 := clamp01_eq_self le_rfl zero_le_one

theorem clamp01_one : clamp01 (1:ℚ) = 1 := clamp01_eq_self zero_le_one le_rfl

theorem clamp01_half : clamp01 ((1:ℚ)/2) = 1/2 := clamp01_eq_self (by norm_num) (by norm_num)

theorem pyRound_zero : pyRound (0:ℚ) 2 = 0 := by
  have := pyRound_intCast 0 2
  simpa using this

/-! ## String helpers shared by the skill comparator and semantic matcher -/

/-- Python whitespace (the characters matched by `str.strip()` / `\s`). -/
def isPyWs (c : Char) : Bool :=
  c == ' ' || c == '\t' || c == '\n' || c == '\r' || c == '\x0b' || c == '\x0c'

/-- Python `str.strip()`. -/
def pyStrip (s : String) : String :=
  String.mk (((s.toList.dropWhile isPyWs).reverse.dropWhile isPyWs).reverse)

/-- Python `str.lower()` (the strings handled by the pipeline are ASCII). -/
def pyLower (s : String) : String := String.mk (s.toList.map Char.toLower)

/-- Helper of `pySplitWs`: scan the characters, accumulating the current
word (reversed); a whitespace character closes the current word, and
words are emitted only when nonempty. -/
def splitWsAux : List Char → List Char → List String
  | [], acc => if acc = [] then [] else [String.mk acc.reverse]
  | c :: rest, acc =>
    if isPyWs c then
      if acc = [] then splitWsAux rest []
      else String.mk acc.reverse :: splitWsAux rest []
    else splitWsAux rest (c :: acc)

/-- Python `str.split()` with no argument: split on whitespace runs,
discarding empty pieces. -/
def pySplitWs (s : String) : List String := splitWsAux s.toList []

/-! ## `skill_comparator.py` -/

/-- The character class kept by `_normalize`
(`re.sub(r"[^a-z0-9+#\.\- ]", "", x)` deletes everything else). -/
def keepChar (c : Char) : Bool :=
  ('a' ≤ c && c ≤ 'z') || ('0' ≤ c && c ≤ '9')
    || c == '+' || c == '#' || c == '.' || c == '-' || c == ' '

/-- `re.sub(r"\s+", " ", x)`: collapse each whitespace run to one space.
The boolean argument records whether the previous character belonged to a
whitespace run already replaced. -/
def collapseWsAux : Bool → List Char → List Char
  | _, [] => []
  | prevWs, c :: rest =>
    if isPyWs c then
      if prevWs then collapseWsAux true rest
      else ' ' :: collapseWsAux true rest
    else c :: collapseWsAux false rest

/-- `re.sub(r"\s+", " ", x)`. -/
def collapseWs (l : List Char) : List Char := collapseWsAux false l

/-- `_normalize` of `skill_comparator.py`: strip, lowercase, delete
disallowed characters, collapse whitespace runs. -/
def normalizeSkill (s : String) : String :=
  String.mk (collapseWs ((pyLower (pyStrip s)).toList.filter keepChar))

/-- The token set `set(_normalize(x).split())` used by
`_simple_token_overlap`. -/
def tokensOf (s : String) : Finset String := (pySplitWs (normalizeSkill s)).toFinset

/-- `_simple_token_overlap` of `skill_comparator.py`:
`len(aset & bset) / max(len(aset), len(bset))`, `0.0` when either token
set is empty. -/
def tokenOverlap (a b : String) : ℚ :=
  let aset := tokensOf a
  let bset := tokensOf b
  if aset = ∅ ∨ bset = ∅ then 0
  else ((aset ∩ bset).card : ℚ) / (max aset.card bset.card : ℕ)

/-- The inner loop of Pass 1 of `compare_skills` (lines 72-86): for one
normalized resume skill `r`, walk the enumerated normalized JD skills,
skipping already-matched indices, tracking `(best_j, best_sim)`; a strict
improvement updates the pair, and an exact normalized match overwrites it
with similarity `1.0` and breaks. -/
def scanJ (r : String) (mi : List ℕ) :
    List (ℕ × String) → Option (ℕ × String) × ℚ → Option (ℕ × String) × ℚ
  | [], st => st
  | (j, jj) :: rest, (bj, bs) =>
    if j ∈ mi then scanJ r mi rest (bj, bs)
    else
      let sim := tokenOverlap r jj
      let st' : Option (ℕ × String) × ℚ := if bs < sim then (some (j, jj), sim) else (bj, bs)
      if r = jj then (some (j, jj), 1) else scanJ r mi rest st'

/-- One element of the `matched` list of `compare_skills`. -/
structure MatchEntry where
  resume_skill : String
  jd_skill : String
  similarity : ℚ
deriving DecidableEq

/-- One step of the outer Pass 1 loop (lines 72-89): run the inner scan
for resume skill `p = (original, normalized)` and accept the best
candidate when `best_j` is set and `best_sim > 0.6`
(`matched.append(...)`, `matched_j_idx.add(...)`). -/
def pass1Step (jIdx : List (ℕ × String)) (st : List MatchEntry × List ℕ)
    (p : String × String) : List MatchEntry × List ℕ :=
  match scanJ p.2 st.2 jIdx (none, 0) with
  | (some (j, jj), bs) =>
    if 3/5 < bs then (st.1 ++ [⟨p.1, jj, pyRound bs 3⟩], st.2 ++ [j]) else st
  | (none, _) => st

/-- Pass 1 of `compare_skills` without an embedding function: fold the
step over the resume skills in iteration order. -/
def pass1 (resume_skills jd_skills : List String) : List MatchEntry × List ℕ :=
  (List.zip resume_skills (resume_skills.map normalizeSkill)).foldl
    (pass1Step ((jd_skills.map normalizeSkill).enum)) ([], [])

/-- `missing` of `compare_skills` (lines 122-125): the original JD skills
whose index was never matched, in order.  (The source wraps each one in a
suggestion record `{"skill": ms, "suggestion": ...}`; the model keeps the
skill strings, the only part any claim refers to.) -/
def missingOf (midx : List ℕ) (jd_skills : List String) : List String :=
  (jd_skills.enum.filter (fun p => p.1 ∉ midx)).map Prod.snd

/-- Output of `compare_skills` (embedding-free path, `embed_fn = None`). -/
structure CompareResult where
  skill_fit_index : ℚ
  match_percentage : ℚ
  matched_skills : List MatchEntry
  missing_skills : List String
  extra_resume_skills : List String

/-- `compare_skills` of `skill_comparator.py` with `embed_fn = None`
(the `if embed_fn:` block is skipped).  `match_pct =
(len(jskills) - len(missing)) / max(1, len(jskills))`,
`sfi = 0.7 * match_pct + 0.3 * avg_sim`. -/
def compareSkills (resume_skills jd_skills : List String) : CompareResult :=
  let st := pass1 resume_skills jd_skills
  let matched := st.1
  let midx := st.2
  let missing := missingOf midx jd_skills
  let matched_resumes := matched.map (fun m => m.resume_skill)
  let extras := resume_skills.filter (fun r => r ∉ matched_resumes)
  let match_pct : ℚ :=
    ((jd_skills.length : ℚ) - (missing.length : ℚ)) / ((max 1 jd_skills.length : ℕ) : ℚ)
  let avg_sim : ℚ :=
    if matched = [] then 0 else (matched.map (fun m => m.similarity)).sum / (matched.length : ℚ)
  let sfi := 7/10 * match_pct + 3/10 * avg_sim
  { skill_fit_index := pyRound sfi 4
    match_percentage := pyRound (match_pct * 100) 2
    matched_skills := matched
    missing_skills := missing
    extra_resume_skills := extras }

/-! ### Lemmas about `compare_skills` -/

theorem pass1Step_nilJ (st : List MatchEntry × List ℕ) (p : String × String) :
    pass1Step [] st p = st := rfl

theorem foldl_pass1Step_nilJ (l : List (String × String)) :
    ∀ st : List MatchEntry × List ℕ, l.foldl (pass1Step []) st = st := by
  induction l with
  | nil => intro st; rfl
  | cons a t ih => intro st; rw [List.foldl_cons, pass1Step_nilJ]; exact ih st

theorem pass1_nilJ (rs : List String) : pass1 rs [] = ([], []) := by
  unfold pass1
  simp only [List.map_nil, List.enum_nil]
  exact foldl_pass1Step_nilJ _ _

theorem compareSkills_nilJ_match_percentage (rs : List String) :
    (compareSkills rs []).match_percentage = 0 := by
  unfold compareSkills
  rw [pass1_nilJ]
  simp only [missingOf, List.enum_nil, List.filter_nil, List.map_nil, List.length_nil]
  norm_num
  simpa using pyRound_zero

theorem scanJ_exact (r : String) (mi : List ℕ) :
    ∀ (l : List (ℕ × String)) (st : Option (ℕ × String) × ℚ),
      (∃ p ∈ l, p.1 ∉ mi ∧ p.2 = r) → (scanJ r mi l st).2 = 1 := by
  intro l
  induction l with
  | nil => intro st h; simp at h
  | cons a t ih =>
    intro st hex
    obtain ⟨j, jj⟩ := a
    obtain ⟨bj, bs⟩ := st
    obtain ⟨p, hp, hpmi, hpr⟩ := hex
    rw [scanJ]
    by_cases hj : j ∈ mi
    · rw [if_pos hj]
      rcases List.mem_cons.mp hp with h | h
      · exact absurd (h ▸ hj) hpmi
      · exact ih _ ⟨p, h, hpmi, hpr⟩
    · rw [if_neg hj]
      by_cases hr : r = jj
      · simp [hr]
      · simp only [if_neg hr]
        rcases List.mem_cons.mp hp with h | h
        · subst h; exact absurd hpr.symm hr
        · exact ih _ ⟨p, h, hpmi, hpr⟩

theorem scanJ_none (r : String) (mi : List ℕ) :
    ∀ (l : List (ℕ × String)) (st : Option (ℕ × String) × ℚ),
      (st.1 = none → st.2 = 0) →
      (scanJ r mi l st).1 = none → (scanJ r mi l st).2 = 0 := by
  intro l
  induction l with
  | nil => intro st h hn; exact h hn
  | cons a t ih =>
    intro st h
    obtain ⟨j, jj⟩ := a
    obtain ⟨bj, bs⟩ := st
    rw [scanJ]
    by_cases hj : j ∈ mi
    · rw [if_pos hj]; exact ih _ h
    · rw [if_neg hj]
      by_cases hr : r = jj
      · simp [hr]
      · simp only [if_neg hr]
        apply ih
        by_cases hs : bs < tokenOverlap r jj
        · simp [hs]
        · simpa [hs] using h

theorem scanJ_mem (r : String) (mi : List ℕ) :
    ∀ (l : List (ℕ × String)) (st : Option (ℕ × String) × ℚ) (j : ℕ) (jj : String),
      (scanJ r mi l st).1 = some (j, jj) →
      st.1 = some (j, jj) ∨ ((j, jj) ∈ l ∧ j ∉ mi) := by
  intro l
  induction l with
  | nil => intro st j jj h; exact Or.inl h
  | cons a t ih =>
    intro st j jj h
    obtain ⟨j₀, jj₀⟩ := a
    obtain ⟨bj, bs⟩ := st
    rw [scanJ] at h
    by_cases hj : j₀ ∈ mi
    · rw [if_pos hj] at h
      rcases ih _ _ _ h with h' | h'
      · exact Or.inl h'
      · exact Or.inr ⟨List.mem_cons_of_mem _ h'.1, h'.2⟩
    · rw [if_neg hj] at h
      by_cases hr : r = jj₀
      · simp only [if_pos hr] at h
        obtain ⟨h1, h2⟩ := Prod.mk.injEq .. ▸ Option.some.injEq .. ▸ h
        exact Or.inr ⟨by simp [← h1, ← h2], (h1 ▸ hj)⟩
      · simp only [if_neg hr] at h
        by_cases hs : bs < tokenOverlap r jj₀
        · simp only [if_pos hs] at h
          rcases ih _ _ _ h with h' | h'
          · obtain ⟨h1, h2⟩ := Prod.mk.injEq .. ▸ Option.some.injEq .. ▸ h'
            exact Or.inr ⟨by simp [← h1, ← h2], (h1 ▸ hj)⟩
          · exact Or.inr ⟨List.mem_cons_of_mem _ h'.1, h'.2⟩
        · simp only [if_neg hs] at h
          rcases ih _ _ _ h with h' | h'
          · exact Or.inl h'
          · exact Or.inr ⟨List.mem_cons_of_mem _ h'.1, h'.2⟩

theorem scanJ_attains (r : String) (mi : List ℕ) :
    ∀ (l : List (ℕ × String)) (st : Option (ℕ × String) × ℚ),
      (¬ ∃ p ∈ l, p.1 ∉ mi ∧ p.2 = r) →
      (∀ j jj, st.1 = some (j, jj) → tokenOverlap r jj = st.2) →
      ∀ j jj, (scanJ r mi l st).1 = some (j, jj) →
        tokenOverlap r jj = (scanJ r mi l st).2 := by
  intro l
  induction l with
  | nil => intro st _ h j jj hj; exact h j jj hj
  | cons a t ih =>
    intro st hex h
    obtain ⟨j₀, jj₀⟩ := a
    obtain ⟨bj, bs⟩ := st
    rw [scanJ]
    by_cases hj : j₀ ∈ mi
    · rw [if_pos hj]
      exact ih _ (fun ⟨p, hp, h1, h2⟩ => hex ⟨p, List.mem_cons_of_mem _ hp, h1, h2⟩) h
    · rw [if_neg hj]
      by_cases hr : r = jj₀
      · exact absurd ⟨(j₀, jj₀), List.mem_cons_self _ _, hj, hr.symm⟩ hex
      · simp only [if_neg hr]
        apply ih _ (fun ⟨p, hp, h1, h2⟩ => hex ⟨p, List.mem_cons_of_mem _ hp, h1, h2⟩)
        intro j jj hjj
        by_cases hs : bs < tokenOverlap r jj₀
        · simp only [if_pos hs] at hjj ⊢
          obtain ⟨h1, h2⟩ := Prod.mk.injEq .. ▸ Option.some.injEq .. ▸ hjj
          simp [← h2]
        · simp only [if_neg hs] at hjj ⊢
          exact h j jj hjj

theorem scanJ_max (r : String) (mi : List ℕ) :
    ∀ (l : List (ℕ × String)) (st : Option (ℕ × String) × ℚ),
      (¬ ∃ p ∈ l, p.1 ∉ mi ∧ p.2 = r) →
      (scanJ r mi l st).2
        = ((l.filter (fun p => p.1 ∉ mi)).map (fun p => tokenOverlap r p.2)).foldl max st.2 := by
  intro l
  induction l with
  | nil => intro st _; rfl
  | cons a t ih =>
    intro st hex
    obtain ⟨j₀, jj₀⟩ := a
    obtain ⟨bj, bs⟩ := st
    rw [scanJ]
    by_cases hj : j₀ ∈ mi
    · rw [if_pos hj]
      rw [List.filter_cons_of_neg (by simpa using hj)]
      exact ih _ (fun ⟨p, hp, h1, h2⟩ => hex ⟨p, List.mem_cons_of_mem _ hp, h1, h2⟩)
    · rw [if_neg hj]
      by_cases hr : r = jj₀
      · exact absurd ⟨(j₀, jj₀), List.mem_cons_self _ _, hj, hr.symm⟩ hex
      · simp only [if_neg hr]
        rw [List.filter_cons_of_pos (by simpa using hj), List.map_cons, List.foldl_cons]
        rw [ih _ (fun ⟨p, hp, h1, h2⟩ => hex ⟨p, List.mem_cons_of_mem _ hp, h1, h2⟩)]
        congr 1
        by_cases hs : bs < tokenOverlap r jj₀
        · simp only [if_pos hs]
          exact (max_eq_right hs.le).symm
        · simp only [if_neg hs]
          exact (max_eq_left (not_lt.mp hs)).symm

/-- State invariant of the Pass 1 fold: matched JD indices are distinct,
in range, and in bijection with the matched entries. -/
def Pass1Inv (n : ℕ) (st : List MatchEntry × List ℕ) : Prop :=
  st.2.Nodup ∧ (∀ j ∈ st.2, j < n) ∧ st.1.length = st.2.length

theorem pass1Step_inv {n : ℕ} {jIdx : List (ℕ × String)}
    (hjb : ∀ p ∈ jIdx, p.1 < n) (st : List MatchEntry × List ℕ) (p : String × String)
    (h : Pass1Inv n st) : Pass1Inv n (pass1Step jIdx st p) := by
  obtain ⟨h1, h2, h3⟩ := h
  unfold pass1Step
  rcases hsc : scanJ p.2 st.2 jIdx (none, 0) with ⟨bj, bs⟩
  match bj with
  | none => exact ⟨h1, h2, h3⟩
  | some (j, jj) =>
    by_cases hb : (3:ℚ)/5 < bs
    · simp only [if_pos hb]
      have hm := scanJ_mem p.2 st.2 jIdx (none, 0) j jj (by rw [hsc])
      rcases hm with hm | ⟨hmem, hnotin⟩
      · exact absurd hm (by simp)
      refine ⟨?_, ?_, ?_⟩
      · rw [List.nodup_append]
        exact ⟨h1, List.nodup_singleton j, by simpa [List.disjoint_singleton] using hnotin⟩
      · intro j' hj'
        rcases List.mem_append.mp hj' with hj' | hj'
        · exact h2 j' hj'
        · rw [List.mem_singleton.mp hj']
          exact hjb _ hmem
      · simp [h3]
    · simp only [if_neg hb]
      exact ⟨h1, h2, h3⟩

theorem pass1_foldl_inv {n : ℕ} {jIdx : List (ℕ × String)}
    (hjb : ∀ p ∈ jIdx, p.1 < n) :
    ∀ (l : List (String × String)) (st : List MatchEntry × List ℕ),
      Pass1Inv n st → Pass1Inv n (l.foldl (pass1Step jIdx) st) := by
  intro l
  induction l with
  | nil => intro st h; exact h
  | cons a t ih =>
    intro st h
    rw [List.foldl_cons]
    exact ih _ (pass1Step_inv hjb st a h)

theorem pass1_inv (rs js : List String) : Pass1Inv js.length (pass1 rs js) := by
  unfold pass1
  apply pass1_foldl_inv
  · intro p hp
    obtain ⟨i, x⟩ := p
    have := List.mk_mem_enum_iff_getElem?.mp hp
    have hlt := List.getElem?_eq_some.mp this |>.1
    simpa using hlt
  · exact ⟨List.nodup_nil, by simp, rfl⟩

/-! ## Claim theorems about `compare_skills` -/

/-- C3 counterexample.  The lexical similarity of `_simple_token_overlap`
is `|intersection| / max(|a|, |b|)`, not `|intersection| / |union|`: on
`"python django"` vs `"python flask"` the code computes `1/2`, while the
claimed intersection-over-union ratio is `1/3`. -/
theorem token_overlap_counterexample :
    tokenOverlap "python django" "python flask" = 1/2
    ∧ ((tokensOf "python django" ∩ tokensOf "python flask").card : ℚ)
        / ((tokensOf "python django" ∪ tokensOf "python flask").card : ℚ) = 1/3
    ∧ (1/2 : ℚ) ≠ 1/3 := by
  have hi : (tokensOf "python django" ∩ tokensOf "python flask").card = 1 := by decide
  have hu : (tokensOf "python django" ∪ tokensOf "python flask").card = 3 := by decide
  have ha : (tokensOf "python django").card = 2 := by decide
  have hb : (tokensOf "python flask").card = 2 := by decide
  have hna : ¬(tokensOf "python django" = ∅ ∨ tokensOf "python flask" = ∅) := by decide
  refine ⟨?_, ?_, by norm_num⟩
  · simp only [tokenOverlap]
    rw [if_neg hna, hi, ha, hb]
    norm_num
  · rw [hi, hu]
    norm_num

/-- C3 amended.  In Pass 1 of `compare_skills`, the lexical similarity is
the token-overlap ratio `|intersection| / max(|a|, |b|)` of the two
lowercase alphanumeric token sets (not intersection over union); an exact
normalized match is accepted immediately with similarity `1.0`; otherwise
the tracked best similarity is the highest overlap over the not-yet-matched
JD skills, the stored candidate attains it, and the candidate is accepted
iff that overlap exceeds `0.6`. -/
theorem pass1_lexical_rule :
    (∀ a b : String, tokensOf a ≠ ∅ → tokensOf b ≠ ∅ →
        tokenOverlap a b
          = ((tokensOf a ∩ tokensOf b).card : ℚ)
            / ((max (tokensOf a).card (tokensOf b).card : ℕ) : ℚ))
    ∧ (∀ (r : String) (mi : List ℕ) (l : List (ℕ × String)),
        (∃ p ∈ l, p.1 ∉ mi ∧ p.2 = r) →
          (scanJ r mi l (none, 0)).2 = 1 ∧ (scanJ r mi l (none, 0)).1 ≠ none)
    ∧ (∀ (r : String) (mi : List ℕ) (l : List (ℕ × String)),
        ((scanJ r mi l (none, 0)).1 ≠ none ∧ 3/5 < (scanJ r mi l (none, 0)).2)
          ↔ 3/5 < (scanJ r mi l (none, 0)).2)
    ∧ (∀ (r : String) (mi : List ℕ) (l : List (ℕ × String)),
        (¬ ∃ p ∈ l, p.1 ∉ mi ∧ p.2 = r) →
          (scanJ r mi l (none, 0)).2
            = ((l.filter (fun p => p.1 ∉ mi)).map (fun p => tokenOverlap r p.2)).foldl max 0
          ∧ (∀ j jj, (scanJ r mi l (none, 0)).1 = some (j, jj) →
              tokenOverlap r jj = (scanJ r mi l (none, 0)).2)) := by
  refine ⟨?_, ?_, ?_, ?_⟩
  · intro a b ha hb
    simp only [tokenOverlap]
    rw [if_neg (not_or.mpr ⟨ha, hb⟩)]
  · intro r mi l hex
    have h1 := scanJ_exact r mi l (none, 0) hex
    refine ⟨h1, fun hn => ?_⟩
    have h0 := scanJ_none r mi l (none, 0) (fun _ => rfl) hn
    rw [h1] at h0
    norm_num at h0
  · intro r mi l
    refine ⟨And.right, fun h => ⟨fun hn => ?_, h⟩⟩
    have h0 := scanJ_none r mi l (none, 0) (fun _ => rfl) hn
    rw [h0] at h
    norm_num at h
  · intro r mi l hex
    exact ⟨scanJ_max r mi l (none, 0) hex,
      scanJ_attains r mi l (none, 0) hex (by simp)⟩

/-- Witness for C3: the amended rule evaluated at concrete inputs. -/
theorem pass1_lexical_rule_witness :
    tokenOverlap "machine learning" "deep learning"
      = ((tokensOf "machine learning" ∩ tokensOf "deep learning").card : ℚ)
        / ((max (tokensOf "machine learning").card (tokensOf "deep learning").card : ℕ) : ℚ)
    ∧ (scanJ "python" [] [(0, "python")] (none, 0)).2 = 1
    ∧ (scanJ "a" [] [(0, "b")] (none, 0)).2
        = (([(0, "b")].filter (fun p => p.1 ∉ ([] : List ℕ))).map
            (fun p => tokenOverlap "a" p.2)).foldl max 0 := by
  refine ⟨pass1_lexical_rule.1 _ _ (by decide) (by decide),
    (pass1_lexical_rule.2.1 "python" [] [(0, "python")]
      ⟨(0, "python"), by simp, by simp, rfl⟩).1,
    (pass1_lexical_rule.2.2.2 "a" [] [(0, "b")] ?_).1⟩
  rintro ⟨p, hp, hmi, hpr⟩
  simp at hp
  rw [hp] at hpr
  simp at hpr

/-- C2 counterexample.  `compare_skills(["python"], [])` returns
`match_percentage = 0`, not `100`: the divide-by-zero guard is
`max(1, len(jskills))`, which makes the empty-JD ratio `0/1 = 0`. -/
theorem compare_skills_empty_jd_counterexample :
    (compareSkills ["python"] []).match_percentage = 0
    ∧ (compareSkills ["python"] []).match_percentage ≠ 100 := by
  have h := compareSkills_nilJ_match_percentage ["python"]
  exact ⟨h, by rw [h]; norm_num⟩

/-- C2 amended.  With an empty JD skill list (and any resume skill list)
`compare_skills` returns without error and its `match_percentage` equals
`0`. -/
theorem compare_skills_empty_jd (rs : List String) :
    (compareSkills rs []).match_percentage = 0 :=
  compareSkills_nilJ_match_percentage rs

/-- Concrete Pass 1 run on resume `["a"]` against the duplicated JD list
`["a", "a"]`: index 0 is matched exactly, index 1 stays unmatched. -/
theorem pass1_dup : pass1 ["a"] ["a", "a"] = ([⟨"a", "a", pyRound 1 3⟩], [0]) := by
  have hnorm : normalizeSkill "a" = "a" := by decide
  have hscan : scanJ "a" [] [(0, "a"), (1, "a")] (none, 0) = (some (0, "a"), 1) := by
    simp [scanJ]
  unfold pass1
  simp only [List.map_cons, List.map_nil, hnorm, List.enum, List.enumFrom, List.zip,
    List.zipWith, List.foldl_cons, List.foldl_nil]
  rw [pass1Step]
  simp only [hscan]
  norm_num

/-- C7 counterexample.  With the duplicated JD list `["a", "a"]` and
resume `["a"]`, the JD skill string `"a"` appears both in the matched
pairs and in the missing list — JD skills are partitioned by index, not
by string, so a duplicated string lands on both sides. -/
theorem compare_skills_duplicate_jd_counterexample :
    "a" ∈ (compareSkills ["a"] ["a", "a"]).matched_skills.map (fun m => m.jd_skill)
    ∧ "a" ∈ (compareSkills ["a"] ["a", "a"]).missing_skills := by
  unfold compareSkills
  rw [pass1_dup]
  constructor
  · simp
  · simp only [missingOf, List.enum, List.enumFrom]
    simp [List.filter]

/-- C7 amended.  For every resume and JD skill list, `compare_skills`
classifies every JD skill *occurrence* (index) into exactly one side: the
matched indices are distinct and in range, the matched entries are in
bijection with them, and the missing list consists exactly of the JD
entries at unmatched indices.  (A duplicated JD *string* can still show
up on both sides, one occurrence each.) -/
theorem compare_skills_index_partition (rs js : List String) :
    (pass1 rs js).2.Nodup
    ∧ (∀ j ∈ (pass1 rs js).2, j < js.length)
    ∧ (compareSkills rs js).matched_skills.length = (pass1 rs js).2.length
    ∧ (∀ (i : ℕ) (x : String),
        (i, x) ∈ js.enum.filter (fun p => p.1 ∉ (pass1 rs js).2)
          ↔ (js[i]? = some x ∧ i ∉ (pass1 rs js).2))
    ∧ (compareSkills rs js).missing_skills
        = (js.enum.filter (fun p => p.1 ∉ (pass1 rs js).2)).map Prod.snd := by
  obtain ⟨h1, h2, h3⟩ := pass1_inv rs js
  refine ⟨h1, h2, h3, ?_, rfl⟩
  intro i x
  rw [List.mem_filter, List.mk_mem_enum_iff_getElem?]
  simp

/-- Witness for C7 at the concrete duplicated-JD input. -/
theorem compare_skills_index_partition_witness :
    (0 : ℕ) < (["a", "a"] : List String).length
    ∧ ((1, "a") ∈ (["a", "a"] : List String).enum.filter
        (fun p => p.1 ∉ (pass1 ["a"] ["a", "a"]).2)
          ↔ ((["a", "a"] : List String)[1]? = some "a"
            ∧ 1 ∉ (pass1 ["a"] ["a", "a"]).2)) := by
  refine ⟨(compare_skills_index_partition ["a"] ["a", "a"]).2.1 0 ?_,
    (compare_skills_index_partition ["a"] ["a", "a"]).2.2.2.1 1 "a"⟩
  rw [pass1_dup]
  simp

/-! ## `semantic_matcher.py` -/

/-- Dot product of two embedding vectors (`np.dot`). -/
def dotList (a b : List ℚ) : ℚ := (List.zipWith (fun x y => x * y) a b).sum

/-- Squared Euclidean norm, so that `np.linalg.norm v = Real.sqrt (normSq v)`. -/
def normSq (a : List ℚ) : ℚ := (a.map (fun x => x * x)).sum

theorem normSq_nonneg (a : List ℚ) : 0 ≤ normSq a := by
  unfold normSq
  induction a with
  | nil => simp
  | cons x t ih => simp only [List.map_cons, List.sum_cons]; nlinarith [mul_self_nonneg x]

/-- The zero test of `_cosine` — `denom = norm(a)*norm(b); if denom == 0` —
restated on the squared norms: since both norms are nonnegative square
roots, `sqrt (normSq a) * sqrt (normSq b) = 0` iff `normSq a * normSq b = 0`. -/
theorem sqrt_mul_sqrt_eq_zero_iff (a b : List ℚ) :
    Real.sqrt (normSq a) * Real.sqrt (normSq b) = 0 ↔ ((normSq a * normSq b : ℚ) : ℝ) = 0 := by
  rw [mul_eq_zero, Real.sqrt_eq_zero (by exact_mod_cast normSq_nonneg a),
    Real.sqrt_eq_zero (by exact_mod_cast normSq_nonneg b),
    show ((normSq a * normSq b : ℚ) : ℝ) = ((normSq a : ℚ) : ℝ) * ((normSq b : ℚ) : ℝ) by
      push_cast; ring,
    mul_eq_zero]

/-- `_cosine` of `semantic_matcher.py` (lines 31-37): `0.0` when either
argument is `None`; `0.0` when `denom = norm(a) * norm(b)` is zero (the
test is written on the squared norms, see `sqrt_mul_sqrt_eq_zero_iff`);
otherwise `dot / denom`. -/
noncomputable def cosineSem (a b : Option (List ℚ)) : ℝ :=
  match a, b with
  | none, _ => 0
  | _, none => 0
  | some a, some b =>
    if normSq a * normSq b = 0 then 0
    else ((dotList a b : ℚ) : ℝ) / (Real.sqrt (normSq a) * Real.sqrt (normSq b))

/-- `EmbeddingEngine.cosine_similarity` of `utils/embeddings.py`
(lines 83-103): `0.0` on a `None` argument, `0.0` when either norm is
zero, else `dot / (norm1 * norm2)`. -/
noncomputable def cosine_similarity (vec1 vec2 : Option (List ℚ)) : ℝ :=
  match vec1, vec2 with
  | none, _ => 0
  | _, none => 0
  | some v1, some v2 =>
    if normSq v1 = 0 ∨ normSq v2 = 0 then 0
    else ((dotList v1 v2 : ℚ) : ℝ) / (Real.sqrt (normSq v1) * Real.sqrt (normSq v2))

/-- `_embedding_similarity` of `skill_comparator.py` (lines 44-48): it has
*no* `None` guard — `np.linalg.norm(None)` raises a `TypeError`, modelled
as `Except.error`; with actual vectors, `0.0` on a zero denominator, else
`dot / denom`. -/
noncomputable def embeddingSimilarity (a b : Option (List ℚ)) : Except String ℝ :=
  match a, b with
  | none, _ => Except.error "TypeError"
  | _, none => Except.error "TypeError"
  | some a, some b =>
    if normSq a * normSq b = 0 then Except.ok 0
    else Except.ok (((dotList a b : ℚ) : ℝ) / (Real.sqrt (normSq a) * Real.sqrt (normSq b)))

/-- The per-resume-chunk loop of `semantic_similarity_resume_jd`
(lines 129-142): starting from `best_score = 0.0`, keep each strictly
larger similarity.  Parametric in the similarity kernel `cos`, which the
code instantiates with `_cosine` over the `embed_fn` vectors. -/
def bestMatch {V : Type} (cos : V → V → ℚ) (re : V) (jEmbs : List V) : ℚ :=
  jEmbs.foldl (fun b je => if b < cos re je then cos re je else b) 0

/-- The overall-score step of `semantic_similarity_resume_jd`
(lines 144-147): `weights = [max(1, len(p.split())) for p in resume_chunks]`,
`overall = (weighted_sum / sum(weights)) if weights else 0.0`.  Each chunk
is paired with its embedding vector (`zip(resume_chunks, r_embs)`). -/
def overallScore {V : Type} (cos : V → V → ℚ) (chunks : List (String × V))
    (jEmbs : List V) : ℚ :=
  let sums := chunks.map (fun c => bestMatch cos c.2 jEmbs)
  let weights := chunks.map (fun c => max 1 (pySplitWs c.1).length)
  let weighted_sum := (List.zipWith (fun (s : ℚ) (w : ℕ) => s * (w : ℚ)) sums weights).sum
  if weights = [] then 0 else weighted_sum / ((weights.sum : ℕ) : ℚ)

/-! ### `_chunk_text_to_paragraphs` (lines 40-55) -/

/-- `re.split(r"\n{2,}|\r\n{2,}", text)` with leftmost-match semantics: a
separator is a run of two or more `\n` (consumed greedily), or a `\r`
followed by such a run. -/
def splitBlankAux : List Char → List Char → List (List Char)
  | [], acc => [acc.reverse]
  | '\n' :: '\n' :: rest, acc =>
    acc.reverse :: splitBlankAux (rest.dropWhile (fun c => c == '\n')) []
  | '\r' :: '\n' :: '\n' :: rest, acc =>
    acc.reverse :: splitBlankAux (rest.dropWhile (fun c => c == '\n')) []
  | c :: rest, acc => splitBlankAux rest (c :: acc)
termination_by l _ => l.length
decreasing_by
  · exact Nat.lt_succ_of_le (Nat.le_succ_of_le (List.dropWhile_sublist _).length_le)
  · exact Nat.lt_succ_of_le (Nat.le_succ_of_le (Nat.le_succ_of_le
      (List.dropWhile_sublist _).length_le))
  · simp

/-- The blank-line split of `_chunk_text_to_paragraphs`. -/
def pySplitBlank (s : String) : List String := (splitBlankAux s.toList []).map String.mk

/-- `parts = [p.strip() for p in parts if p.strip()]`. -/
def paragraphsOf (text : String) : List String :=
  ((pySplitBlank text).map pyStrip).filter (fun p => p ≠ "")

/-- The sentence-split fallback `re.split(r"[.?!]\s+", text)`: a separator
is one of `.?!` followed by a whitespace run, both consumed. -/
def splitSentAux : List Char → List Char → List String
  | [], acc => [String.mk acc.reverse]
  | c :: rest, acc =>
    if (c == '.' || c == '?' || c == '!') && rest.head?.any isPyWs then
      String.mk acc.reverse :: splitSentAux (rest.dropWhile isPyWs) []
    else splitSentAux rest (c :: acc)
termination_by l _ => l.length
decreasing_by
  · exact Nat.lt_succ_of_le (List.dropWhile_sublist _).length_le
  · simp

/-- `re.split(r"[.?!]\s+", text)`. -/
def reSplitSent (s : String) : List String := splitSentAux s.toList []

/-- `chunks = [" ".join(sents[i:i+3]) for i in range(0, len(sents), 3)]`. -/
def groups3 : List String → List String
  | [] => []
  | a :: rest => String.intercalate " " (a :: rest.take 2) :: groups3 (rest.drop 2)
termination_by l => l.length
decreasing_by
  exact Nat.lt_succ_of_le (Nat.le_trans (List.length_drop 2 rest ▸ Nat.sub_le _ _) le_rfl)

/-- `_chunk_text_to_paragraphs` of `semantic_matcher.py`: blank-line
paragraphs when any survive stripping; otherwise sentences grouped in
threes, with `chunks or [text]` guaranteeing at least one chunk.  `tok`
is `nltk.sent_tokenize` when the import and the call succeed, `none`
selects the regex fallback of the `except` branch. -/
def chunkText (tok : Option (String → List String)) (text : String) : List String :=
  let parts := paragraphsOf text
  if parts ≠ [] then parts
  else
    let sents := match tok with
      | some f => f text
      | none => reSplitSent text
    let chunks := groups3 sents
    if chunks = [] then [text] else chunks

/-! ## `orchestration.py` -/

/-- The record assembled by `OrchestrationEngine.run`.  A field of value
`none` means the key was never written; `optimized_resume = some none`
means the key is present with value `null`. -/
structure RunRecord (V : Type) where
  resume : Option V
  jd : Option V
  matcher : Option V
  optimized_resume : Option (Option V)
  ats : Option V
  status : String
  error : Option String

/-- `OrchestrationEngine.run` (lines 46-122), with each stage's outcome as
an `Except` value.  The parse/JD `gather` raises before `result["resume"]`
is written; `run_optimizer` converts an optimizer exception to `None`;
a matcher exception propagates before `result["matcher"]` and
`result["optimized_resume"]` are written; a scoring exception propagates
after them; any propagated exception lands in the outer `except`, which
sets `status = "error"`.  The best-effort persistence step never changes
the returned record's status and is not modelled. -/
def orchestrationRun {V : Type} (parse jdA matchR optO scoreR : Except String V) :
    RunRecord V :=
  match parse with
  | .error e => ⟨none, none, none, none, none, "error", some e⟩
  | .ok rd =>
    match jdA with
    | .error e => ⟨none, none, none, none, none, "error", some e⟩
    | .ok jdd =>
      let optimized : Option V := match optO with | .ok v => some v | .error _ => none
      match matchR with
      | .error e => ⟨some rd, some jdd, none, none, none, "error", some e⟩
      | .ok m =>
        match scoreR with
        | .error e => ⟨some rd, some jdd, some m, some optimized, none, "error", some e⟩
        | .ok s => ⟨some rd, some jdd, some m, some optimized, some s, "success", none⟩

/-! ## Claim theorems about orchestration, semantic matching and cosine guards -/

/-- C4.  If the optimization stage raises (and the other stages return,
as the agent wrappers guarantee by catching internally), the run
completes with `status = "success"` and `optimized_resume` present with
value `null`; if resume parsing raises, the run completes with
`status = "error"` and the record carries neither a matcher nor an ats
sub-result. -/
theorem orchestration_failure_semantics :
    (∀ (V : Type) (rd jdd m s : V) (e : String),
        (orchestrationRun (Except.ok rd) (Except.ok jdd) (Except.ok m)
            (Except.error e) (Except.ok s)).status = "success"
        ∧ (orchestrationRun (Except.ok rd) (Except.ok jdd) (Except.ok m)
            (Except.error e) (Except.ok s)).optimized_resume = some none)
    ∧ (∀ (V : Type) (e : String) (jdA matchR optO scoreR : Except String V),
        (orchestrationRun (Except.error e) jdA matchR optO scoreR).status = "error"
        ∧ (orchestrationRun (Except.error e) jdA matchR optO scoreR).matcher = none
        ∧ (orchestrationRun (Except.error e) jdA matchR optO scoreR).ats = none) :=
  ⟨fun _ _ _ _ _ _ => ⟨rfl, rfl⟩, fun _ _ _ _ _ _ => ⟨rfl, rfl, rfl⟩⟩

/-- The similarity kernel of the C6 scenario: two resume chunks with
best-match similarities `0.4` and `0.8`. -/
def scenarioCos : ℕ → ℕ → ℚ :=
  fun r j => if r = 0 ∧ j = 0 then 2/5 else if r = 1 ∧ j = 1 then 4/5 else 0

/-- C6.  The Semantic Matcher's overall score is the word-count-weighted
mean of each resume chunk's best-match similarity (weight = word count
floored at 1): `overall * Σ weights = Σ best·weight` for every nonempty
chunk list, and the concrete two-chunk scenario with word counts 5 and 15
and best matches 0.4 and 0.8 yields `(5·0.4 + 15·0.8)/20 = 0.70`. -/
theorem semantic_overall_weighted_mean :
    (∀ (V : Type) (cos : V → V → ℚ) (chunks : List (String × V)) (jEmbs : List V),
        chunks ≠ [] →
        overallScore cos chunks jEmbs
            * (((chunks.map (fun c => max 1 (pySplitWs c.1).length)).sum : ℕ) : ℚ)
          = (chunks.map
              (fun c => bestMatch cos c.2 jEmbs
                * ((max 1 (pySplitWs c.1).length : ℕ) : ℚ))).sum)
    ∧ overallScore scenarioCos
        [("w w w w w", 0), ("w w w w w w w w w w w w w w w", 1)] [0, 1] = 7/10 := by
  constructor
  · intro V cos chunks jEmbs hne
    simp only [overallScore]
    rw [if_neg (by simpa using hne)]
    have hpos : 0 < (chunks.map (fun c => max 1 (pySplitWs c.1).length)).sum := by
      apply List.sum_pos
      · intro x hx
        obtain ⟨c, _, rfl⟩ := List.mem_map.mp hx
        exact lt_of_lt_of_le Nat.zero_lt_one (le_max_left _ _)
      · simpa using hne
    rw [div_mul_cancel₀ _ (by exact_mod_cast hpos.ne')]
    rw [List.zipWith_map, List.zipWith_same]
  · have h5 : (pySplitWs "w w w w w").length = 5 := by decide
    have h15 : (pySplitWs "w w w w w w w w w w w w w w w").length = 15 := by decide
    have hb0 : bestMatch scenarioCos 0 [0, 1] = 2/5 := by
      norm_num [bestMatch, scenarioCos]
    have hb1 : bestMatch scenarioCos 1 [0, 1] = 4/5 := by
      norm_num [bestMatch, scenarioCos]
    simp only [overallScore, List.map_cons, List.map_nil, hb0, hb1, h5, h15]
    norm_num [List.cons_ne_nil]

/-- Witness for C6: the weighted-mean identity at a concrete one-chunk
input. -/
theorem semantic_overall_weighted_mean_witness :
    overallScore scenarioCos [("w w w w w", (0:ℕ))] [0, 1]
        * ((([(("w w w w w", (0:ℕ)))].map (fun c => max 1 (pySplitWs c.1).length)).sum : ℕ) : ℚ)
      = ([(("w w w w w", (0:ℕ)))].map
          (fun c => bestMatch scenarioCos c.2 [0, 1]
            * ((max 1 (pySplitWs c.1).length : ℕ) : ℚ))).sum :=
  semantic_overall_weighted_mean.1 ℕ scenarioCos _ _ (by simp)

/-- C9.  `_chunk_text_to_paragraphs` returns at least one chunk for every
input: the stripped blank-line paragraphs when any exist, otherwise
sentence groups, with empty input collapsing to the single whole-text
chunk `[""]`.  `tok` is the NLTK tokenizer when available (it returns
`[]` on empty input, hypothesis `hE`); `tok = none` is the regex
fallback. -/
theorem chunk_text_total (tok : Option (String → List String)) (text : String)
    (hE : ∀ f, tok = some f → f "" = []) :
    1 ≤ (chunkText tok text).length
    ∧ chunkText tok "" = [""]
    ∧ (paragraphsOf text ≠ [] → chunkText tok text = paragraphsOf text) := by
  have hpe : paragraphsOf "" = [] := by
    have h1 : pySplitBlank "" = [""] := by
      simp [pySplitBlank, splitBlankAux]
    have h2 : pyStrip "" = "" := by decide
    simp [paragraphsOf, h1, h2]
  refine ⟨?_, ?_, ?_⟩
  · clear hE
    simp only [chunkText]
    by_cases hp : paragraphsOf text ≠ []
    · rw [if_pos hp]
      exact List.length_pos.mpr hp
    · rw [if_neg hp]
      by_cases hc : groups3 (match tok with | some f => f text | none => reSplitSent text) = []
      · rw [if_pos hc]; simp
      · rw [if_neg hc]
        exact List.length_pos.mpr hc
  · cases tok with
    | some f =>
      have hf := hE f rfl
      simp [chunkText, hpe, hf, groups3]
    | none =>
      have hs : reSplitSent "" = [""] := by
        simp [reSplitSent, splitSentAux]
      have hg : groups3 [""] = [""] := by
        rw [groups3]
        norm_num [groups3]
        decide
      simp [chunkText, hpe, hs, hg]
  · intro h
    simp only [chunkText]
    rw [if_pos h]

/-- Witness for C9: the regex-fallback tokenizer at concrete inputs. -/
theorem chunk_text_total_witness :
    1 ≤ (chunkText none "hello world").length ∧ chunkText none "" = [""] :=
  ⟨(chunk_text_total none "hello world" (fun _ h => nomatch h)).1,
   (chunk_text_total none "" (fun _ h => nomatch h)).2.1⟩

/-- C10 counterexample.  The skill comparator's `_embedding_similarity`
has no `None` guard: `np.linalg.norm(None)` raises a `TypeError`, so on a
`None` argument the helper does not return `0.0` (it does not return at
all). -/
theorem embedding_similarity_none_counterexample :
    embeddingSimilarity none (some [1]) = Except.error "TypeError"
    ∧ ∀ q : ℝ, embeddingSimilarity none (some [1]) ≠ Except.ok q := by
  refine ⟨rfl, fun q h => ?_⟩
  rw [show embeddingSimilarity none (some [1]) = Except.error "TypeError" from rfl] at h
  exact Except.noConfusion h

/-- C10 amended.  All three cosine helpers are total in the embedding and
guard the zero-norm case with `0.0`; the semantic-matcher and
embedding-engine helpers additionally return `0.0` on a `None` argument,
while the skill-comparator helper errors there (it is only ever invoked
on materialised `np.array` values inside a `try` block). -/
theorem cosine_helpers_guards :
    (∀ b, cosineSem none b = 0)
    ∧ (∀ a, cosineSem a none = 0)
    ∧ (∀ v w : List ℚ, normSq v * normSq w = 0 → cosineSem (some v) (some w) = 0)
    ∧ (∀ b, cosine_similarity none b = 0)
    ∧ (∀ a, cosine_similarity a none = 0)
    ∧ (∀ v w : List ℚ, normSq v = 0 ∨ normSq w = 0 →
        cosine_similarity (some v) (some w) = 0)
    ∧ (∀ v w : List ℚ, normSq v * normSq w = 0 →
        embeddingSimilarity (some v) (some w) = Except.ok 0) := by
  refine ⟨fun b => ?_, fun a => ?_, fun v w h => ?_, fun b => ?_, fun a => ?_,
    fun v w h => ?_, fun v w h => ?_⟩
  · cases b <;> rfl
  · cases a <;> rfl
  · simp [cosineSem, h]
  · cases b <;> rfl
  · cases a <;> rfl
  · simp [cosine_similarity, h]
  · simp [embeddingSimilarity, h]

/-- Witness for C10's amended guards at concrete zero-norm vectors. -/
theorem cosine_helpers_guards_witness :
    cosineSem (some [0, 0]) (some [1]) = 0
    ∧ cosine_similarity (some [0]) (some [1]) = 0
    ∧ embeddingSimilarity (some [0]) (some [1]) = Except.ok 0 := by
  have h0 : normSq [(0:ℚ)] = 0 := by norm_num [normSq]
  have h00 : normSq [(0:ℚ), 0] = 0 := by norm_num [normSq]
  exact ⟨cosine_helpers_guards.2.2.1 _ _ (by rw [h00]; ring),
    cosine_helpers_guards.2.2.2.2.2.1 _ _ (Or.inl h0),
    cosine_helpers_guards.2.2.2.2.2.2 _ _ (by rw [h0]; ring)⟩

/-! ## The logistic display transform (`backend/models/analytics_engine.py`)

`AnalyticsEngine.ats_score` (lines 146-202) combines four signals with its
own weights (`semantic .35, keyword .30, structure .20, action .15`), then
squashes the weighted raw value with
`sigmoid = 100.0 / (1.0 + exp(-(raw / 0.25 - 2.0)))` and returns the
(rounded) sigmoid as that engine's `score`.  The structural sub-scores
(`structure_score`, `action_verbs_score`) are taken as arguments here; the
claims below concern only the fusion/sigmoid step. -/

/-- The weight dictionary `_DEFAULT_WEIGHTS` of `analytics_engine.py`
(`struct` stands for the `"structure"` key, a reserved word in Lean). -/
structure AnalyticsWeights where
  semantic : ℚ
  keyword : ℚ
  struct : ℚ
  action : ℚ

def analyticsDefaultWeights : AnalyticsWeights :=
  { semantic := 35/100, keyword := 30/100, struct := 20/100, action := 15/100 }

/-- The weighted raw value of `AnalyticsEngine.ats_score`: each `0..100`
signal is first normalised by `/ 100.0`, then combined with the weights. -/
def analyticsRaw (w : AnalyticsWeights) (semantic_score keyword_overlap
    struct_score action_score : ℚ) : ℚ :=
  semantic_score / 100 * w.semantic + keyword_overlap / 100 * w.keyword
    + struct_score / 100 * w.struct + action_score / 100 * w.action

/-- The logistic squashing of `AnalyticsEngine.ats_score`, line 189:
`100.0 / (1.0 + exp(-(raw / 0.25 - 2.0)))`. -/
noncomputable def logisticDisplay (raw : ℝ) : ℝ :=
  100 / (1 + Real.exp (-(raw / 0.25 - 2)))

/-- Round-half-to-even over `ℝ` (Python `round` tie rule). -/
noncomputable def rheR (x : ℝ) : ℤ :=
  if x - ⌊x⌋ < 1/2 then ⌊x⌋
  else if 1/2 < x - ⌊x⌋ then ⌊x⌋ + 1
  else if Even ⌊x⌋ then ⌊x⌋ else ⌊x⌋ + 1

/-- Python `round(x, n)` over `ℝ`. -/
noncomputable def pyRoundR (x : ℝ) (n : ℕ) : ℝ :=
  (rheR (x * (10:ℝ) ^ n) : ℝ) / (10:ℝ) ^ n

/-- The `score` field returned by `AnalyticsEngine.ats_score`:
the rounded sigmoid of the weighted raw value (the logistic value *is*
that engine's persisted score; no linear score is returned there). -/
noncomputable def analyticsScore (w : AnalyticsWeights) (semantic_score keyword_overlap
    struct_score action_score : ℚ) : ℝ :=
  pyRoundR (logisticDisplay ((analyticsRaw w semantic_score keyword_overlap
    struct_score action_score : ℚ) : ℝ)) 2

theorem logisticDisplay_pos (raw : ℝ) : 0 < logisticDisplay raw := by
  unfold logisticDisplay
  positivity

/-! ## Claim theorems about the Score Fusion Engine -/

/-- C1.  The code belies the claim (and its own comments): because
`penalty = max(0.0, weights["formatting"] * s_fmt_pen)` clamps the negative
product to zero, the formatting term never lowers the score.  At the
failing input (all five positive signals `0.5`, `formatting_penalty = 1`)
the fused final score is `50`, exactly the same as with
`formatting_penalty = 0`, although the claimed formula demands a strictly
lower value (`44.74`). -/
theorem fuse_formatting_term_is_inert :
    (fuseComponents defaultWeights (1/2) (1/2) (1/2) (1/2) (1/2) 1).final_score = 50
    ∧ (fuseComponents defaultWeights (1/2) (1/2) (1/2) (1/2) (1/2) 0).final_score = 50 := by
  constructor <;>
  · rw [fuse_default_final, clamp01_half]
    have h2 : ((30:ℚ)/100 * (1/2) + 30/100 * (1/2) + 15/100 * (1/2) + 8/100 * (1/2)
        + 12/100 * (1/2)) / (95/100) = 1/2 := by norm_num
    rw [h2, clamp01_half]
    have h3 : ((1:ℚ)/2 * 100) = ((50:ℤ):ℚ) := by norm_num
    rw [h3, pyRound_intCast]
    norm_num

/-- C5.  For every combination of the six input signals, the fused
`final_score` under the default weights lies in `[0, 100]`; with all six
signals equal to `1` it is exactly `100`; with all six equal to `0` it is
`0`, hence `≥ 0`. -/
theorem fuse_final_score_bounds :
    (∀ a b c d e f : ℚ,
        0 ≤ (fuseComponents defaultWeights a b c d e f).final_score
        ∧ (fuseComponents defaultWeights a b c d e f).final_score ≤ 100)
    ∧ (fuseComponents defaultWeights 1 1 1 1 1 1).final_score = 100
    ∧ 0 ≤ (fuseComponents defaultWeights 0 0 0 0 0 0).final_score := by
  refine ⟨fun a b c d e f => ⟨fuse_final_nonneg _ a b c d e f, fuse_final_le_100 _ a b c d e f⟩,
    ?_, fuse_final_nonneg _ 0 0 0 0 0 0⟩
  rw [fuse_default_final, clamp01_one]
  have h2 : ((30:ℚ)/100 * 1 + 30/100 * 1 + 15/100 * 1 + 8/100 * 1 + 12/100 * 1) / (95/100)
      = 1 := by norm_num
  rw [h2, clamp01_one]
  have h3 : ((1:ℚ) * 100) = ((100:ℤ):ℚ) := by norm_num
  rw [h3, pyRound_intCast]
  norm_num

/-- C8 counterexample.  `fuse_components` does not compute the logistic
display transform: at the all-zero invocation its weighted raw value is
`0` and every numeric output it produces equals `0`, while the logistic
display value of the same raw value, `logisticDisplay 0 = 100/(1+e²)`, is
nonzero — so the display formula is nowhere among the Score Fusion
Engine's outputs. -/
theorem fuse_no_logistic_counterexample :
    ((fuseComponents defaultWeights 0 0 0 0 0 0).final_score = 0
      ∧ (fuseComponents defaultWeights 0 0 0 0 0 0).final_score_norm = 0
      ∧ (fuseComponents defaultWeights 0 0 0 0 0 0).c_sem = 0
      ∧ (fuseComponents defaultWeights 0 0 0 0 0 0).c_ski = 0
      ∧ (fuseComponents defaultWeights 0 0 0 0 0 0).c_key = 0
      ∧ (fuseComponents defaultWeights 0 0 0 0 0 0).c_act = 0
      ∧ (fuseComponents defaultWeights 0 0 0 0 0 0).c_exp = 0
      ∧ (fuseComponents defaultWeights 0 0 0 0 0 0).c_fmt = 0)
    ∧ logisticDisplay 0 ≠ 0 := by
  refine ⟨⟨?_, ?_, ?_, ?_, ?_, ?_, ?_, ?_⟩, ne_of_gt (logisticDisplay_pos 0)⟩ <;>
    simp [fuseComponents, clamp01_zero, pyRound_zero, defaultWeights]

/-- C8 amended.  The Score Fusion Engine computes only the canonical
linear score (`final_score` is the rounded percentage of its clamped
normalised raw value); the logistic transform
`100/(1+e^-(raw/0.25-2))` is computed by `AnalyticsEngine.ats_score`,
where the rounded logistic value is that engine's returned score; and the
canonical score is never the logistic-squashed value — the two differ,
e.g. at all-zero signals. -/
theorem fuse_linear_vs_analytics_logistic :
    (∀ s k st a : ℚ, analyticsScore analyticsDefaultWeights s k st a
        = pyRoundR (logisticDisplay ((analyticsRaw analyticsDefaultWeights s k st a : ℚ) : ℝ)) 2)
    ∧ (∀ a b c d e f : ℚ, (fuseComponents defaultWeights a b c d e f).final_score
        = pyRound ((fuseComponents defaultWeights a b c d e f).final_score_norm * 100) 2)
    ∧ (((fuseComponents defaultWeights 0 0 0 0 0 0).final_score : ℝ) ≠ logisticDisplay 0) := by
  refine ⟨fun s k st a => rfl, fun a b c d e f => rfl, ?_⟩
  have h0 : (fuseComponents defaultWeights 0 0 0 0 0 0).final_score = 0 := by
    rw [fuse_default_final, clamp01_zero]
    have h2 : ((30:ℚ)/100 * 0 + 30/100 * 0 + 15/100 * 0 + 8/100 * 0 + 12/100 * 0) / (95/100)
        = 0 := by norm_num
    rw [h2, clamp01_zero]
    simpa using pyRound_zero
  rw [h0]
  push_cast
  exact fun h => absurd h.symm (ne_of_gt (logisticDisplay_pos 0))

end CVdOST
